import Mathlib

set_option maxRecDepth 8000

/-! Verification of the legal-text segmentation and retrieval engine of the
fair-trade statute analysis repository.  The article segmenter is embedded
from law_data_collector.py (LawDataCollector._extract_articles), the corpus
builder and the TF-IDF ranking front end from fair_trade_app.py
(SimpleFairTradeRAG), and the vector-store retrieval path from
fair_trade_rag.py (FairTradeRAG.search_relevant_documents). -/

/-! Character classes of the segmentation pattern
    r'제(\d+)조\s*[\(\[（]?([^\)\]）]*)[\)\]）]?\s*(.*?)(?=제\d+조|$)'
    applied with re.DOTALL (law_data_collector.py line 121). -/

/-- Whitespace class of a regex whitespace escape, modelled on the ASCII
range (space, tab, newline, carriage return, vertical tab, form feed). -/
def isSpCh (c : Char) : Bool :=
  c = ' ' || c = '\t' || c = '\n' || c = '\r' || c = '\x0b' || c = '\x0c'

/-- Digit class of the regex digit escape, modelled on the ASCII digits. -/
def isDigitCh (c : Char) : Bool :=
  '0' ≤ c && c ≤ '9'

/-- Opening-bracket class of the pattern, the set ( [ （. -/
def isOpenBracket (c : Char) : Bool :=
  c = '(' || c = '[' || c = '（'

/-- Closing-bracket class of the pattern, the set ) ] ）. -/
def isCloseBracket (c : Char) : Bool :=
  c = ')' || c = ']' || c = '）'

/-- Match of the leading part of the pattern at the head of the input: the
literal 제, then the first capture group of one or more digits (greedy: the
maximal digit run), then the literal 조.  Returns the captured digit run and
the remaining input, or none when the pattern cannot match here.  This is
also the lookahead test of the pattern. -/
def markerAt : List Char → Option (List Char × List Char)
  | [] => none
  | c :: t =>
    if c = '제' then
      match t.takeWhile isDigitCh, t.dropWhile isDigitCh with
      | [], _ => none
      | _ :: _, [] => none
      | d :: ds, c2 :: r => if c2 = '조' then some (d :: ds, r) else none
    else none

/-- The lazy third capture group with its lookahead, (.*?)(?=제\d+조|$)
under re.DOTALL: the shortest prefix of the input such that the remaining
suffix either begins with a marker or is the end of input; a dollar anchor
without re.MULTILINE also matches just before a trailing newline.  Returns
the captured prefix and the remaining suffix (where the whole match ends). -/
def scanBody : List Char → List Char × List Char
  | [] => ([], [])
  | c :: t =>
    if (markerAt (c :: t)).isSome then ([], c :: t)
    else if c = '\n' && t.isEmpty then ([], c :: t)
    else
      let p := scanBody t
      (c :: p.1, p.2)

/-- Consumption of an optional single character from the given class: drop
the head when it belongs to the class, otherwise leave the input alone. -/
def dropOpt (p : Char → Bool) : List Char → List Char
  | [] => []
  | c :: t => if p c then t else c :: t

/-- The part of the pattern after 제(\d+)조, namely
\s*[\(\[（]?([^\)\]）]*)[\)\]）]?\s*(.*?)(?=제\d+조|$).  Because the tail of
the pattern can always succeed, every greedy piece keeps its maximal match
and the optional brackets are consumed whenever present.  Returns the raw
second capture group, the raw third capture group, and the input remaining
after the whole match. -/
def matchTail (s : List Char) : List Char × List Char × List Char :=
  let s2 := dropOpt isOpenBracket (s.dropWhile isSpCh)
  let g2 := s2.takeWhile (fun c => !isCloseBracket c)
  let s5 := (dropOpt isCloseBracket (s2.dropWhile (fun c => !isCloseBracket c))).dropWhile isSpCh
  let p := scanBody s5
  (g2, p.1, p.2)

/-- Python str.strip(): remove leading and trailing whitespace (modelled on
the ASCII whitespace range). -/
def stripChars (l : List Char) : List Char :=
  ((l.dropWhile isSpCh).reverse.dropWhile isSpCh).reverse

/-- One extracted article, the dict appended at law_data_collector.py lines
129 to 133: number is capture group 1, title is the stripped capture group 2,
content is the stripped capture group 3. -/
structure Article where
  number : String
  title : String
  content : String
deriving DecidableEq, Repr

/-- The re.finditer loop of _extract_articles: scan left to right; at the
first position where the pattern matches, emit the article and resume the
scan where the match ended.  The fuel argument bounds the recursion; every
step consumes at least one character, so fuel equal to the input length is
never exhausted before the input is. -/
def findArticlesF : Nat → List Char → List Article
  | 0, _ => []
  | _ + 1, [] => []
  | fuel + 1, c :: t =>
    match markerAt (c :: t) with
    | some (ds, r) =>
      let m := matchTail r
      { number := String.mk ds, title := String.mk (stripChars m.1),
        content := String.mk (stripChars m.2.1) } :: findArticlesF fuel m.2.2
    | none => findArticlesF fuel t

/-- LawDataCollector._extract_articles (law_data_collector.py lines 108 to
135; the leading underscore of the source name is dropped). -/
def extract_articles (content : String) : List Article :=
  findArticlesF content.data.length content.data

/-- Position-annotated variant of the finditer loop: each emitted article is
paired with the offset of its match start in the scanned text. -/
def findArticlesPosF : Nat → Nat → List Char → List (Nat × Article)
  | 0, _, _ => []
  | _ + 1, _, [] => []
  | fuel + 1, pos, c :: t =>
    match markerAt (c :: t) with
    | some (ds, r) =>
      let m := matchTail r
      (pos, { number := String.mk ds, title := String.mk (stripChars m.1),
              content := String.mk (stripChars m.2.1) })
        :: findArticlesPosF fuel (pos + ((c :: t).length - m.2.2.length)) m.2.2
    | none => findArticlesPosF fuel (pos + 1) t

/-- extract_articles with the start offset of each article's match. -/
def extract_articles_pos (content : String) : List (Nat × Article) :=
  findArticlesPosF content.data.length 0 content.data

/-- Number of marker occurrences (positions where 제, one or more digits,
then 조 begins) in a text. -/
def countMarkers : List Char → Nat
  | [] => 0
  | c :: t => (if (markerAt (c :: t)).isSome then 1 else 0) + countMarkers t

/-- The digit strings of the marker occurrences of a text, in order. -/
def markerNumbers : List Char → List String
  | [] => []
  | c :: t =>
    match markerAt (c :: t) with
    | some (ds, _) => String.mk ds :: markerNumbers t
    | none => markerNumbers t

/-- Concatenation of the content fields of a list of articles. -/
def bodiesConcat (articles : List Article) : String :=
  String.join (articles.map Article.content)

/-! Corpus builder and TF-IDF ranking front end, fair_trade_app.py,
class SimpleFairTradeRAG (lines 42 to 152). -/

/-- Kind tag of a retrievable document ('type' key of the dicts built at
fair_trade_app.py lines 63 to 74). -/
inductive DocType where
  | full_law
  | article
deriving DecidableEq, Repr

/-- One searchable document, the dict appended by prepare_documents. -/
structure Document where
  text : String
  title : String
  type : DocType
deriving DecidableEq, Repr

/-- One statute record as consumed by prepare_documents: the dict keys
title, content and articles (a missing or None content is modelled as the
empty string, matching Python falsiness of the get call). -/
structure Law where
  title : String
  content : String
  articles : List Article
deriving DecidableEq, Repr

/-- The document-building loop of SimpleFairTradeRAG.prepare_documents
(fair_trade_app.py lines 58 to 75): for each law append one full-law
document when the content is truthy, then one document per article. -/
def prepare_documents_list (laws : List Law) : List Document :=
  laws.foldl (fun documents law =>
    let documents :=
      if law.content ≠ "" then
        documents ++ [{ text := law.title ++ " " ++ law.content,
                        title := law.title, type := DocType.full_law }]
      else documents
    law.articles.foldl (fun ds a =>
      ds ++ [{ text := law.title ++ " 제" ++ a.number ++ "조 " ++ a.title ++ " " ++ a.content,
               title := law.title ++ " 제" ++ a.number ++ "조",
               type := DocType.article }]) documents) []

/-- Mutable state of SimpleFairTradeRAG: the prepared document list and
whether doc_vectors is set (None until a non-empty corpus is fitted). -/
structure SimpleRAG where
  documents : List Document
  vectorsBuilt : Bool
deriving DecidableEq, Repr

/-- SimpleFairTradeRAG.__init__ (fair_trade_app.py lines 45 to 48):
documents empty, doc_vectors None. -/
def initRAG : SimpleRAG :=
  { documents := [], vectorsBuilt := false }

/-- SimpleFairTradeRAG.prepare_documents (fair_trade_app.py lines 58 to
81): store the document list, fit the vectorizer only when the list is
non-empty (otherwise doc_vectors keeps its previous value), and return the
document count. -/
def prepare_documents (st : SimpleRAG) (laws : List Law) : SimpleRAG × Nat :=
  let documents := prepare_documents_list laws
  ({ documents := documents,
     vectorsBuilt := if documents.isEmpty then st.vectorsBuilt else true },
   documents.length)

/-- Stable ascending insertion of index i into an already sorted index
list: i is placed before the first index whose score is strictly larger,
hence after every index of equal score. -/
def insertIdxAsc (sims : List ℚ) (i : Nat) : List Nat → List Nat
  | [] => [i]
  | j :: rest =>
    if sims.getD i 0 < sims.getD j 0 then i :: j :: rest
    else j :: insertIdxAsc sims i rest

/-- Ascending argsort of the similarity vector (fair_trade_app.py line 91,
similarities.argsort()).  numpy's default sort leaves the order of equal
elements unspecified; the embedding determinizes it as the stable sort,
which keeps equal scores in index order. -/
def argsortAsc (sims : List ℚ) : List Nat :=
  (List.range sims.length).foldl (fun acc i => insertIdxAsc sims i acc) []

/-- Python slice a[-k:] for a non-negative int k: the whole list when
k = 0 (since -0 is 0), otherwise the last k elements. -/
def pyTailSlice (l : List α) (k : Nat) : List α :=
  if k = 0 then l else l.drop (l.length - k)

/-- similarities.argsort()[-n_results:][::-1] (fair_trade_app.py line 91). -/
def topIndices (sims : List ℚ) (k : Nat) : List Nat :=
  (pyTailSlice (argsortAsc sims) k).reverse

/-- One search hit, the dict appended at fair_trade_app.py lines 95 to 99. -/
structure SearchResult where
  text : String
  title : String
  similarity : ℚ
deriving DecidableEq, Repr

/-- Fallback document for the (never reached in range) list indexing. -/
def emptyDoc : Document :=
  { text := "", title := "", type := DocType.full_law }

/-- SimpleFairTradeRAG.search_relevant_documents (fair_trade_app.py lines
83 to 101).  The TF-IDF/cosine similarity computation is performed by
sklearn over floating point numbers and is abstracted as the given score
vector sims (one score per prepared document); the guard, ranking, slicing
and result assembly are embedded from the source. -/
def search_relevant_documents (st : SimpleRAG) (sims : List ℚ) (n_results : Nat) :
    List SearchResult :=
  if st.documents.isEmpty || !st.vectorsBuilt then []
  else
    (topIndices sims n_results).map (fun idx =>
      { text := (st.documents.getD idx emptyDoc).text,
        title := (st.documents.getD idx emptyDoc).title,
        similarity := sims.getD idx 0 })

/-- The strict ordering that the determinized argsort realizes on indexes:
smaller score first, and on equal scores smaller index first. -/
def scoreLt (sims : List ℚ) (i j : Nat) : Prop :=
  sims.getD i 0 < sims.getD j 0 ∨ (sims.getD i 0 = sims.getD j 0 ∧ i < j)

instance (sims : List ℚ) (i j : Nat) : Decidable (scoreLt sims i j) := by
  unfold scoreLt
  exact inferInstance

/-! Case analysis front end, fair_trade_app.py lines 103 to 152. -/

/-- The no-data message returned by both analysis entry points when
retrieval yields nothing (fair_trade_app.py lines 108 and 132). -/
def no_data_message : String :=
  "관련 법령 데이터가 없습니다. 먼저 데이터를 수집해주세요."

/-- Three-decimal rendering of a score, modelling the Python format
specifier .3f on the exact rational value (round to nearest). -/
def fmt3 (q : ℚ) : String :=
  let m : Int := ⌊q * 1000 + 1 / 2⌋
  let n := m.natAbs
  (if m < 0 then "-" else "") ++ toString (n / 1000) ++ "." ++
    (if n % 1000 < 10 then "00" else if n % 1000 < 100 then "0" else "") ++
    toString (n % 1000)

/-- One block of the local analysis report (fair_trade_app.py lines 112 to
116); i is the 1-based index from enumerate. -/
def reportEntry (i : Nat) (doc : SearchResult) : String :=
  "### " ++ toString i ++ ". " ++ doc.title ++ "\n" ++
  "**유사도:** " ++ fmt3 doc.similarity ++ "\n\n" ++
  "**내용:** " ++ String.mk (doc.text.data.take 300) ++ "...\n\n" ++
  "---\n\n"

/-- SimpleFairTradeRAG.analyze_case_simple (fair_trade_app.py lines 103 to
122).  The query string enters only through the abstracted score vector. -/
def analyze_case_simple (st : SimpleRAG) (sims : List ℚ) : String :=
  let relevant_docs := search_relevant_documents st sims 3
  if relevant_docs.isEmpty then no_data_message
  else
    "## 📊 관련 법령 분석\n\n" ++
    String.join ((List.range relevant_docs.length).map (fun i =>
      reportEntry (i + 1) (relevant_docs.getD i ⟨"", "", 0⟩))) ++
    "## 💡 분석 요약\n\n" ++
    "위의 관련 법령들을 검토하여 케이스의 법적 쟁점을 파악하시기 바랍니다.\n" ++
    "더 정확한 분석을 위해서는 OpenAI API 키를 설정하여 AI 분석 기능을 활용하세요."

/-- The context block assembled at fair_trade_app.py lines 134 to 136. -/
def aiContext (relevant_docs : List SearchResult) : String :=
  "관련 법령:\n\n" ++
  String.join ((List.range relevant_docs.length).map (fun i =>
    let doc := relevant_docs.getD i ⟨"", "", 0⟩
    toString (i + 1) ++ ". " ++ doc.title ++ "\n" ++
    String.mk (doc.text.data.take 400) ++ "...\n\n"))

/-- SimpleFairTradeRAG.analyze_case_ai (fair_trade_app.py lines 124 to
152).  hasApiKey models the OPENAI_API_KEY environment check; llm models
the external chat-completion service on the success path (the
exception-to-fallback path of the try block is external and not taken in
the embedded success model). -/
def analyze_case_ai (hasApiKey : Bool) (llm : String → String) (st : SimpleRAG)
    (sims : List ℚ) (case_description : String) : String :=
  if !hasApiKey then analyze_case_simple st sims
  else
    let relevant_docs := search_relevant_documents st sims 5
    if relevant_docs.isEmpty then no_data_message
    else llm ("케이스: " ++ case_description ++ "\n\n" ++ aiContext relevant_docs ++
              "\n\n위 케이스를 분석해주세요.")

/-! Vector-store retrieval path, fair_trade_rag.py, class FairTradeRAG. -/

/-- Snapshot of a chromadb collection: the stored chunk ids and texts
(fair_trade_rag.py create_vector_database). -/
structure ChromaCollection where
  ids : List String
  docs : List String
deriving DecidableEq, Repr

/-- The lists returned by a chromadb similarity query for one query
embedding (first row of documents, metadatas and distances). -/
structure ChromaQueryReply where
  documents : List String
  metadatas : List String
  distances : List ℚ
deriving DecidableEq, Repr

/-- One result dict built at fair_trade_rag.py lines 184 to 189. -/
structure FTSearchResult where
  text : String
  metadata : String
  distance : ℚ
deriving DecidableEq, Repr

/-- FairTradeRAG.search_relevant_documents (fair_trade_rag.py lines 161 to
191).  The client state is the optionally existing collection; per the
chromadb contract, get_collection raises when the named collection was
never created, which the embedding surfaces as Except.error.  The
embedding-based similarity query itself is the external query_fn. -/
def FT_search_relevant_documents (collection : Option ChromaCollection)
    (query_fn : ChromaCollection → String → Nat → ChromaQueryReply)
    (query : String) (n_results : Nat) : Except String (List FTSearchResult) :=
  match collection with
  | none => Except.error "Collection fair_trade_laws does not exist."
  | some coll =>
    let results := query_fn coll query n_results
    Except.ok ((List.range results.documents.length).map (fun i =>
      { text := results.documents.getD i "",
        metadata := results.metadatas.getD i "",
        distance := results.distances.getD i 0 }))

/-- A trivial external query function returning no hits. -/
def trivialQueryFn : ChromaCollection → String → Nat → ChromaQueryReply :=
  fun _ _ _ => ⟨[], [], []⟩

/-- The full-statute document emitted for a law with truthy content
(fair_trade_app.py lines 62 to 67). -/
def fullDocOf (law : Law) : Document :=
  { text := law.title ++ " " ++ law.content, title := law.title, type := DocType.full_law }

/-- The per-article document emitted for a law (fair_trade_app.py lines 69
to 74). -/
def articleDocOf (law : Law) (a : Article) : Document :=
  { text := law.title ++ " 제" ++ a.number ++ "조 " ++ a.title ++ " " ++ a.content,
    title := law.title ++ " 제" ++ a.number ++ "조", type := DocType.article }

/-- All documents emitted for one law: the optional full-statute document
followed by one document per article, in order. -/
def lawDocsOf (law : Law) : List Document :=
  (if law.content ≠ "" then [fullDocOf law] else []) ++ law.articles.map (articleDocOf law)

/-- A two-document fixture used to exercise the ranking code on concrete
inputs. -/
def docA : Document := { text := "a", title := "a", type := DocType.article }

def docB : Document := { text := "b", title := "b", type := DocType.article }

/-- A prepared state holding the two fixture documents. -/
def tieState : SimpleRAG := { documents := [docA, docB], vectorsBuilt := true }

/-! Helper lemmas about the segmenter. -/

lemma countMarkers_cons (c : Char) (t : List Char) :
    countMarkers (c :: t) = (if (markerAt (c :: t)).isSome then 1 else 0) + countMarkers t := rfl

lemma takeWhile_all_append {p : Char → Bool} :
    ∀ (l₁ : List Char) (c : Char) (l₂ : List Char), l₁.all p = true → p c = false →
      (l₁ ++ c :: l₂).takeWhile p = l₁ ∧ (l₁ ++ c :: l₂).dropWhile p = c :: l₂ := by
  intro l₁
  induction l₁ with
  | nil =>
    intro c l₂ _ hc
    simp [List.takeWhile, List.dropWhile, hc]
  | cons a t ih =>
    intro c l₂ hall hc
    simp only [List.all_cons, Bool.and_eq_true] at hall
    have h := ih c l₂ hall.2 hc
    simp [List.takeWhile, List.dropWhile, hall.1, h.1, h.2]

lemma markerAt_some_decomp {s ds r : List Char}
    (h : markerAt s = some (ds, r)) :
    s = '제' :: (ds ++ '조' :: r) ∧ ds ≠ [] ∧ ds.all isDigitCh = true := by
  match s with
  | [] => simp [markerAt] at h
  | c :: t =>
    by_cases hc : c = '제'
    case neg => simp [markerAt, hc] at h
    case pos =>
      subst hc
      simp only [markerAt, if_pos rfl] at h
      have hsplit : t.takeWhile isDigitCh ++ t.dropWhile isDigitCh = t :=
        List.takeWhile_append_dropWhile isDigitCh t
      cases htw : t.takeWhile isDigitCh with
      | nil => rw [htw] at h; simp at h
      | cons d dsr =>
        cases hdw : t.dropWhile isDigitCh with
        | nil => rw [htw, hdw] at h; simp at h
        | cons c2 r2 =>
          rw [htw, hdw] at h
          by_cases hc2 : c2 = '조'
          case neg => simp [hc2] at h
          case pos =>
            subst hc2
            simp only [if_pos rfl, Option.some.injEq, Prod.mk.injEq] at h
            obtain ⟨rfl, rfl⟩ := h
            refine ⟨?_, by simp, ?_⟩
            · rw [← hsplit, htw, hdw]
            · rw [← htw]; exact List.all_takeWhile

lemma markerAt_build {ds r : List Char} (hne : ds ≠ []) (hall : ds.all isDigitCh = true) :
    markerAt ('제' :: (ds ++ '조' :: r)) = some (ds, r) := by
  have hjo : isDigitCh '조' = false := by decide
  have h := takeWhile_all_append ds '조' r hall hjo
  cases ds with
  | nil => exact absurd rfl hne
  | cons d ds2 =>
    simp only [markerAt, if_pos rfl, h.1, h.2]
    simp

lemma markerAt_extend {b v ds r : List Char} (h : markerAt b = some (ds, r)) :
    markerAt (b ++ v) = some (ds, r ++ v) := by
  obtain ⟨hb, hne, hall⟩ := markerAt_some_decomp h
  subst hb
  have : ('제' :: (ds ++ '조' :: r)) ++ v = '제' :: (ds ++ '조' :: (r ++ v)) := by simp
  rw [this]
  exact markerAt_build hne hall

lemma scanBody_append : ∀ s : List Char, (scanBody s).1 ++ (scanBody s).2 = s := by
  intro s
  induction s with
  | nil => rfl
  | cons c t ih =>
    by_cases h : (markerAt (c :: t)).isSome
    · simp [scanBody, h]
    · by_cases h2 : (c = '\n' && t.isEmpty) = true
      · simp [scanBody, h, h2]
      · simp only [scanBody, h, Bool.false_eq_true, if_false, h2]
        simpa using ih

lemma scanBody_snd_suffix (s : List Char) : (scanBody s).2 <:+ s :=
  ⟨(scanBody s).1, scanBody_append s⟩

lemma dropOpt_suffix (p : Char → Bool) (l : List Char) : dropOpt p l <:+ l := by
  cases l with
  | nil => exact List.suffix_refl []
  | cons c t =>
    by_cases h : p c = true
    · simp only [dropOpt, h, if_true]
      exact ⟨[c], rfl⟩
    · simp only [dropOpt, h, Bool.false_eq_true, if_false]
      exact List.suffix_refl _

lemma matchTail_rest_suffix (s : List Char) : (matchTail s).2.2 <:+ s := by
  unfold matchTail
  refine List.IsSuffix.trans (scanBody_snd_suffix _) ?_
  refine List.IsSuffix.trans (List.dropWhile_suffix isSpCh) ?_
  refine List.IsSuffix.trans (dropOpt_suffix isCloseBracket _) ?_
  refine List.IsSuffix.trans (List.dropWhile_suffix _) ?_
  refine List.IsSuffix.trans (dropOpt_suffix isOpenBracket _) ?_
  exact List.dropWhile_suffix isSpCh

lemma countMarkers_suffix_le {l2 l1 : List Char} (h : l2 <:+ l1) :
    countMarkers l2 ≤ countMarkers l1 := by
  obtain ⟨p, rfl⟩ := h
  induction p with
  | nil => exact Nat.le_refl _
  | cons a p ih =>
    refine Nat.le_trans ih ?_
    rw [List.cons_append, countMarkers_cons]
    exact Nat.le_add_left _ _

lemma markerAt_some_rest_suffix {s ds r : List Char} (h : markerAt (s) = some (ds, r)) :
    r <:+ s := by
  obtain ⟨hb, _, _⟩ := markerAt_some_decomp h
  subst hb
  exact ⟨'제' :: (ds ++ ['조']), by simp⟩

lemma countMarkers_eq_of_marker {c : Char} {t ds r : List Char}
    (h : markerAt (c :: t) = some (ds, r)) :
    countMarkers (c :: t) = 1 + countMarkers t := by
  rw [countMarkers_cons, h]
  rfl

lemma findArticlesF_length_le : ∀ (fuel : Nat) (s : List Char),
    (findArticlesF fuel s).length ≤ countMarkers s := by
  intro fuel
  induction fuel with
  | zero => intro s; simp [findArticlesF]
  | succ fuel ih =>
    intro s
    match s with
    | [] => simp [findArticlesF]
    | c :: t =>
      cases hm : markerAt (c :: t) with
      | none =>
        simp only [findArticlesF, hm]
        refine Nat.le_trans (ih t) ?_
        rw [countMarkers_cons]
        exact Nat.le_add_left _ _
      | some v =>
        obtain ⟨ds, r⟩ := v
        simp only [findArticlesF, hm, List.length_cons]
        rw [countMarkers_eq_of_marker hm, Nat.add_comm 1 (countMarkers t)]
        have hrt : r <:+ t := by
          have := markerAt_some_decomp hm
          obtain ⟨hb, _, _⟩ := this
          have ht : t = ds ++ '조' :: r := by
            injection hb with h1 h2
          rw [ht]
          exact ⟨ds ++ ['조'], by simp⟩
        have hrest : (matchTail r).2.2 <:+ t :=
          List.IsSuffix.trans (matchTail_rest_suffix r) hrt
        have := Nat.le_trans (ih (matchTail r).2.2) (countMarkers_suffix_le hrest)
        omega

lemma findArticlesPosF_map_snd : ∀ (fuel : Nat) (pos : Nat) (s : List Char),
    (findArticlesPosF fuel pos s).map Prod.snd = findArticlesF fuel s := by
  intro fuel
  induction fuel with
  | zero => intro pos s; simp [findArticlesPosF, findArticlesF]
  | succ fuel ih =>
    intro pos s
    match s with
    | [] => simp [findArticlesPosF, findArticlesF]
    | c :: t =>
      cases hm : markerAt (c :: t) with
      | none => simp only [findArticlesPosF, findArticlesF, hm]; exact ih _ t
      | some v =>
        obtain ⟨ds, r⟩ := v
        simp only [findArticlesPosF, findArticlesF, hm, List.map_cons]
        rw [ih]

lemma findArticlesPosF_fst_ge : ∀ (fuel : Nat) (pos : Nat) (s : List Char)
    (x : Nat × Article), x ∈ findArticlesPosF fuel pos s → pos ≤ x.1 := by
  intro fuel
  induction fuel with
  | zero => intro pos s x hx; simp [findArticlesPosF] at hx
  | succ fuel ih =>
    intro pos s x hx
    match s with
    | [] => simp [findArticlesPosF] at hx
    | c :: t =>
      cases hm : markerAt (c :: t) with
      | none =>
        rw [findArticlesPosF, hm] at hx
        exact Nat.le_trans (Nat.le_succ pos) (ih (pos + 1) t x hx)
      | some v =>
        obtain ⟨ds, r⟩ := v
        rw [findArticlesPosF, hm] at hx
        rcases List.mem_cons.mp hx with h | h
        · rw [h]
        · exact Nat.le_trans (Nat.le_add_right pos _) (ih _ _ x h)

lemma findArticlesPosF_pairwise : ∀ (fuel : Nat) (pos : Nat) (s : List Char),
    List.Pairwise (fun a b => a.1 < b.1) (findArticlesPosF fuel pos s) := by
  intro fuel
  induction fuel with
  | zero => intro pos s; simp [findArticlesPosF]
  | succ fuel ih =>
    intro pos s
    match s with
    | [] => simp [findArticlesPosF]
    | c :: t =>
      cases hm : markerAt (c :: t) with
      | none => rw [findArticlesPosF, hm]; exact ih (pos + 1) t
      | some v =>
        obtain ⟨ds, r⟩ := v
        rw [findArticlesPosF, hm]
        refine List.Pairwise.cons ?_ (ih _ _)
        intro b hb
        have hge := findArticlesPosF_fst_ge fuel _ _ b hb
        have hlt : (matchTail r).2.2.length < (c :: t).length := by
          obtain ⟨hb, _, _⟩ := markerAt_some_decomp hm
          have ht : t = ds ++ '조' :: r := by injection hb
          have hrt : r <:+ t := by rw [ht]; exact ⟨ds ++ ['조'], by simp⟩
          have h1 := List.IsSuffix.length_le (matchTail_rest_suffix r)
          have h2 := List.IsSuffix.length_le hrt
          simp only [List.length_cons]
          omega
        simp only []
        omega

lemma markerAt_isSome_extend {b v : List Char} (h : (markerAt b).isSome) :
    (markerAt (b ++ v)).isSome := by
  cases hm : markerAt b with
  | none => rw [hm] at h; simp at h
  | some x =>
    obtain ⟨ds, r⟩ := x
    rw [markerAt_extend hm]
    rfl

lemma countMarkers_scanBody : ∀ s : List Char, countMarkers (scanBody s).1 = 0 := by
  intro s
  induction s with
  | nil => rfl
  | cons c t ih =>
    by_cases h : (markerAt (c :: t)).isSome
    · simp [scanBody, h, countMarkers]
    · by_cases h2 : (c = '\n' && t.isEmpty) = true
      · simp only [scanBody, h, Bool.false_eq_true, if_false, h2, if_true]
        rfl
      · have hb : (scanBody (c :: t)).1 = c :: (scanBody t).1 := by
          simp [scanBody, h, h2]
        rw [hb, countMarkers_cons]
        have hm : markerAt (c :: (scanBody t).1) = none := by
          cases hma : markerAt (c :: (scanBody t).1) with
          | none => rfl
          | some v =>
            exfalso
            apply h
            have happ : (c :: (scanBody t).1) ++ (scanBody t).2 = c :: t := by
              simp [scanBody_append t]
            have := markerAt_isSome_extend (v := (scanBody t).2)
              (b := c :: (scanBody t).1) (by rw [hma]; rfl)
            rw [happ] at this
            exact this
        rw [hm]
        simpa using ih

lemma countMarkers_cons_zero {c : Char} {t : List Char} (h : countMarkers (c :: t) = 0) :
    markerAt (c :: t) = none ∧ countMarkers t = 0 := by
  rw [countMarkers_cons] at h
  by_cases hx : (markerAt (c :: t)).isSome = true
  · rw [if_pos hx] at h
    exact absurd h (by omega)
  · rw [if_neg hx] at h
    simp only [Nat.zero_add] at h
    refine ⟨?_, h⟩
    cases hm : markerAt (c :: t) with
    | none => rfl
    | some v => exfalso; apply hx; rw [hm]; rfl

lemma countMarkers_append_zero_left : ∀ (l1 l2 : List Char),
    countMarkers (l1 ++ l2) = 0 → countMarkers l1 = 0 := by
  intro l1
  induction l1 with
  | nil => intro l2 _; rfl
  | cons a t ih =>
    intro l2 h
    rw [List.cons_append] at h
    obtain ⟨hnone, h2⟩ := countMarkers_cons_zero h
    rw [countMarkers_cons]
    have hm : markerAt (a :: t) = none := by
      cases hma : markerAt (a :: t) with
      | none => rfl
      | some v =>
        exfalso
        obtain ⟨ds, r⟩ := v
        have hext := markerAt_extend (v := l2) hma
        rw [List.cons_append] at hext
        rw [hnone] at hext
        exact Option.noConfusion hext
    rw [hm]
    simpa using ih l2 h2

lemma countMarkers_append_zero_right : ∀ (l1 l2 : List Char),
    countMarkers (l1 ++ l2) = 0 → countMarkers l2 = 0 := by
  intro l1
  induction l1 with
  | nil => intro l2 h; simpa using h
  | cons a t ih =>
    intro l2 h
    rw [List.cons_append, countMarkers_cons] at h
    exact ih l2 (by omega)

lemma countMarkers_stripChars {l : List Char} (h : countMarkers l = 0) :
    countMarkers (stripChars l) = 0 := by
  unfold stripChars
  have h1 : countMarkers (l.dropWhile isSpCh) = 0 := by
    have := List.takeWhile_append_dropWhile isSpCh l
    rw [← this] at h
    exact countMarkers_append_zero_right _ _ h
  set l1 := l.dropWhile isSpCh with hl1
  have hdec : l1 = (l1.reverse.dropWhile isSpCh).reverse ++ (l1.reverse.takeWhile isSpCh).reverse := by
    have := List.takeWhile_append_dropWhile isSpCh l1.reverse
    have h2 : (l1.reverse.takeWhile isSpCh ++ l1.reverse.dropWhile isSpCh).reverse = l1.reverse.reverse := by
      rw [this]
    rw [List.reverse_append, List.reverse_reverse] at h2
    exact h2.symm
  rw [hdec] at h1
  exact countMarkers_append_zero_left _ _ h1

lemma matchTail_body_scanBody (s : List Char) :
    ∃ x : List Char, (matchTail s).2.1 = (scanBody x).1 := ⟨_, rfl⟩

lemma findArticlesF_content_marker_free : ∀ (fuel : Nat) (s : List Char) (a : Article),
    a ∈ findArticlesF fuel s → countMarkers a.content.data = 0 := by
  intro fuel
  induction fuel with
  | zero => intro s a ha; simp [findArticlesF] at ha
  | succ fuel ih =>
    intro s a ha
    match s with
    | [] => simp [findArticlesF] at ha
    | c :: t =>
      cases hm : markerAt (c :: t) with
      | none =>
        rw [findArticlesF, hm] at ha
        exact ih t a ha
      | some v =>
        obtain ⟨ds, r⟩ := v
        rw [findArticlesF, hm] at ha
        rcases List.mem_cons.mp ha with h | h
        · subst h
          show countMarkers (String.mk (stripChars (matchTail r).2.1)).data = 0
          obtain ⟨x, hx⟩ := matchTail_body_scanBody r
          rw [hx]
          exact countMarkers_stripChars (countMarkers_scanBody x)
        · exact ih _ a h

lemma findArticlesF_number_digits : ∀ (fuel : Nat) (s : List Char) (a : Article),
    a ∈ findArticlesF fuel s → a.number ≠ "" ∧ a.number.data.all isDigitCh = true := by
  intro fuel
  induction fuel with
  | zero => intro s a ha; simp [findArticlesF] at ha
  | succ fuel ih =>
    intro s a ha
    match s with
    | [] => simp [findArticlesF] at ha
    | c :: t =>
      cases hm : markerAt (c :: t) with
      | none =>
        rw [findArticlesF, hm] at ha
        exact ih t a ha
      | some v =>
        obtain ⟨ds, r⟩ := v
        rw [findArticlesF, hm] at ha
        rcases List.mem_cons.mp ha with h | h
        · subst h
          obtain ⟨_, hne, hall⟩ := markerAt_some_decomp hm
          constructor
          · show String.mk ds ≠ ""
            intro hc
            apply hne
            have : (String.mk ds).data = ("" : String).data := by rw [hc]
            simpa using this
          · exact hall
        · exact ih _ a h

/-! Helper lemmas about the corpus builder. -/

lemma foldl_append_singleton {α β : Type} (f : α → β) : ∀ (l : List α) (init : List β),
    List.foldl (fun ds a => ds ++ [f a]) init l = init ++ l.map f := by
  intro l
  induction l with
  | nil => intro init; simp
  | cons a t ih =>
    intro init
    simp only [List.foldl_cons, List.map_cons, ih, List.append_assoc, List.singleton_append]

lemma prepare_documents_list_eq : ∀ laws : List Law,
    prepare_documents_list laws = (laws.map lawDocsOf).flatten := by
  suffices h : ∀ (ls : List Law) (init : List Document),
      List.foldl (fun documents law =>
        List.foldl (fun ds a => ds ++ [articleDocOf law a])
          (if law.content ≠ "" then documents ++ [fullDocOf law] else documents)
          law.articles) init ls = init ++ (ls.map lawDocsOf).flatten by
    intro laws
    have := h laws []
    simpa [prepare_documents_list, fullDocOf, articleDocOf] using this
  intro ls
  induction ls with
  | nil => intro init; simp
  | cons law rest ih =>
    intro init
    simp only [List.foldl_cons, List.map_cons, List.flatten_cons]
    rw [foldl_append_singleton (articleDocOf law), ih]
    by_cases hc : law.content ≠ ""
    · rw [if_pos hc]
      simp [lawDocsOf, hc, List.append_assoc]
    · rw [if_neg hc]
      simp [lawDocsOf, hc, List.append_assoc]

/-! Helper lemmas about the ranking code. -/

lemma ins_perm (sims : List ℚ) (i : Nat) : ∀ acc : List Nat,
    List.Perm (insertIdxAsc sims i acc) (i :: acc) := by
  intro acc
  induction acc with
  | nil => simp [insertIdxAsc]
  | cons j rest ih =>
    by_cases h : sims.getD i 0 < sims.getD j 0
    · simp only [insertIdxAsc, if_pos h]
      exact List.Perm.refl _
    · simp only [insertIdxAsc, if_neg h]
      exact List.Perm.trans (List.Perm.cons j ih) (List.Perm.swap i j rest)

lemma ins_pairwise (sims : List ℚ) (i : Nat) : ∀ acc : List Nat,
    List.Pairwise (scoreLt sims) acc → (∀ j ∈ acc, j < i) →
    List.Pairwise (scoreLt sims) (insertIdxAsc sims i acc) := by
  intro acc
  induction acc with
  | nil => intro _ _; simp [insertIdxAsc]
  | cons j rest ih =>
    intro hp hlt
    rw [List.pairwise_cons] at hp
    obtain ⟨hj, hrest⟩ := hp
    by_cases h : sims.getD i 0 < sims.getD j 0
    · simp only [insertIdxAsc, if_pos h]
      refine List.Pairwise.cons ?_ (List.Pairwise.cons hj hrest)
      intro y hy
      rcases List.mem_cons.mp hy with rfl | hy2
      · exact Or.inl h
      · rcases hj y hy2 with hlt2 | hpair
        · exact Or.inl (lt_trans h hlt2)
        · exact Or.inl (hpair.1 ▸ h)
    · simp only [insertIdxAsc, if_neg h]
      refine List.Pairwise.cons ?_ (ih hrest (fun x hx => hlt x (List.mem_cons_of_mem j hx)))
      intro y hy
      have hy2 : y ∈ i :: rest := (ins_perm sims i rest).mem_iff.mp hy
      rcases List.mem_cons.mp hy2 with rfl | hy3
      · have hle : sims.getD j 0 ≤ sims.getD y 0 := le_of_not_lt h
        rcases lt_or_eq_of_le hle with hlt2 | heq
        · exact Or.inl hlt2
        · exact Or.inr ⟨heq, hlt j (List.mem_cons_self j rest)⟩
      · exact hj y hy3

lemma fold_ins_perm (sims : List ℚ) : ∀ (l acc : List Nat),
    List.Perm (List.foldl (fun acc i => insertIdxAsc sims i acc) acc l) (l ++ acc) := by
  intro l
  induction l with
  | nil => intro acc; simp
  | cons i t ih =>
    intro acc
    simp only [List.foldl_cons, List.cons_append]
    refine List.Perm.trans (ih (insertIdxAsc sims i acc)) ?_
    refine List.Perm.trans (List.Perm.append_left t (ins_perm sims i acc)) ?_
    exact List.perm_middle

lemma fold_ins_pairwise (sims : List ℚ) : ∀ (l acc : List Nat),
    List.Pairwise (scoreLt sims) acc →
    (∀ j ∈ acc, ∀ i ∈ l, j < i) →
    List.Pairwise (fun a b => a < b) l →
    List.Pairwise (scoreLt sims) (List.foldl (fun acc i => insertIdxAsc sims i acc) acc l) := by
  intro l
  induction l with
  | nil => intro acc h _ _; simpa using h
  | cons i t ih =>
    intro acc hacc hcross hl
    rw [List.pairwise_cons] at hl
    obtain ⟨hi, ht⟩ := hl
    simp only [List.foldl_cons]
    refine ih (insertIdxAsc sims i acc) ?_ ?_ ht
    · exact ins_pairwise sims i acc hacc (fun j hj => hcross j hj i (List.mem_cons_self i t))
    · intro j hj i2 hi2
      have hj2 : j ∈ i :: acc := (ins_perm sims i acc).mem_iff.mp hj
      rcases List.mem_cons.mp hj2 with rfl | hj3
      · exact hi i2 hi2
      · exact hcross j hj3 i2 (List.mem_cons_of_mem i hi2)

lemma argsortAsc_perm (sims : List ℚ) :
    List.Perm (argsortAsc sims) (List.range sims.length) := by
  unfold argsortAsc
  have := fold_ins_perm sims (List.range sims.length) []
  simpa using this

lemma argsortAsc_pairwise (sims : List ℚ) :
    List.Pairwise (scoreLt sims) (argsortAsc sims) := by
  unfold argsortAsc
  refine fold_ins_pairwise sims (List.range sims.length) [] List.Pairwise.nil ?_ ?_
  · intro j hj; simp at hj
  · exact List.pairwise_lt_range sims.length

lemma argsortAsc_length (sims : List ℚ) : (argsortAsc sims).length = sims.length := by
  rw [(argsortAsc_perm sims).length_eq, List.length_range]

lemma pyTailSlice_sublist {α : Type} (l : List α) (k : Nat) : (pyTailSlice l k).Sublist l := by
  unfold pyTailSlice
  by_cases h : k = 0
  · rw [if_pos h]
  · rw [if_neg h]
    exact List.drop_sublist _ _

lemma topIndices_pairwise (sims : List ℚ) (k : Nat) :
    List.Pairwise (fun i j => scoreLt sims j i) (topIndices sims k) := by
  unfold topIndices
  rw [List.pairwise_reverse]
  exact List.Pairwise.sublist (pyTailSlice_sublist _ k) (argsortAsc_pairwise sims)

lemma topIndices_length_min (sims : List ℚ) (k : Nat) (hk : k ≠ 0) :
    (topIndices sims k).length = min k sims.length := by
  unfold topIndices pyTailSlice
  rw [if_neg hk, List.length_reverse, List.length_drop, argsortAsc_length]
  omega

lemma topIndices_zero_perm (sims : List ℚ) :
    List.Perm (topIndices sims 0) (List.range sims.length) := by
  unfold topIndices pyTailSlice
  rw [if_pos rfl]
  exact List.Perm.trans (List.reverse_perm _) (argsortAsc_perm sims)

/-! Claim theorems. -/

/-- C1 (counterexample): the text 제1조 a 제2조 b contains two marker
occurrences, yet the segmenter returns a single article, because the
greedy heading group swallows the second marker; so segmentation does not
return exactly N articles for N markers. -/
theorem extract_two_markers_one_article :
    countMarkers ("제1조 a 제2조 b" : String).data = 2 ∧
    (extract_articles "제1조 a 제2조 b").length = 1 := by
  decide

/-- C1 (amended): the segmenter returns at most as many articles as there
are marker occurrences, and the returned articles appear in the order of
their matches in the source text, at strictly increasing start offsets. -/
theorem extract_articles_upper_bound_ordered (content : String) :
    (extract_articles content).length ≤ countMarkers content.data ∧
    (extract_articles_pos content).map Prod.snd = extract_articles content ∧
    List.Pairwise (fun a b => a.1 < b.1) (extract_articles_pos content) :=
  ⟨findArticlesF_length_le _ _, findArticlesPosF_map_snd _ _ _,
    findArticlesPosF_pairwise _ _ _⟩

/-- C3 (counterexample): on the specification's example text the second
article is not (number 2, empty heading, body 정의 ...): the greedy heading
group captures 정의 ... as the heading and leaves the body empty. -/
theorem extract_example_claim_false :
    (extract_articles "제1조(목적) 이 법의 목적은 ... 제2조 정의 ...").length = 2 ∧
    (extract_articles "제1조(목적) 이 법의 목적은 ... 제2조 정의 ...").getD 1 ⟨"", "", ""⟩ ≠
      (⟨"2", "", "정의 ..."⟩ : Article) := by
  decide

/-- C3 (amended): the example text segments into exactly two articles; the
first has number 1, heading 목적 and body 이 법의 목적은 ...; the second has
number 2, heading 정의 ... and an empty body. -/
theorem extract_example_segmentation :
    extract_articles "제1조(목적) 이 법의 목적은 ... 제2조 정의 ..." =
      [⟨"1", "목적", "이 법의 목적은 ..."⟩, ⟨"2", "정의 ...", ""⟩] := by
  decide

/-- C9 (counterexample): for the text 제1조의2 준용 the extracted number is
the bare digit run 1; the non-numeric suffix 의2 is not preserved in the
number field (it is swallowed by the heading group instead). -/
theorem extract_suffix_number_dropped :
    (extract_articles "제1조의2 준용").map Article.number = ["1"] ∧
    ¬ ("1의2" ∈ (extract_articles "제1조의2 준용").map Article.number) := by
  decide

/-- C9 (amended): every extracted article number is a non-empty string of
digits only; non-numeric suffixes never reach the number field. -/
theorem extract_number_digits_only (content : String) (a : Article)
    (h : a ∈ extract_articles content) :
    a.number ≠ "" ∧ a.number.data.all isDigitCh = true :=
  findArticlesF_number_digits _ _ a h

/-- C9 (witness): instance of extract_number_digits_only on the concrete
text 제1조의2 준용. -/
theorem extract_number_digits_only_witness :
    (⟨"1", "의2 준용", ""⟩ : Article) ∈ extract_articles "제1조의2 준용" ∧
    ((⟨"1", "의2 준용", ""⟩ : Article).number ≠ "" ∧
      (Article.number ⟨"1", "의2 준용", ""⟩).data.all isDigitCh = true) := by
  refine ⟨by decide, ?_⟩
  exact extract_number_digits_only "제1조의2 준용" ⟨"1", "의2 준용", ""⟩ (by decide)

/-- C8 (counterexample): on the text 제9조 A(B) 제1제2조(h) 조문 the
concatenation of the extracted bodies is 제1조문, whose marker set contains
the digit string 1, which does not occur among the markers of the original
text (they are 9 and 2); so concatenating bodies can invent markers. -/
theorem bodies_concat_spurious_marker :
    markerNumbers (bodiesConcat (extract_articles "제9조 A(B) 제1제2조(h) 조문")).data = ["1"] ∧
    markerNumbers ("제9조 A(B) 제1제2조(h) 조문" : String).data = ["9", "2"] ∧
    ¬ ("1" ∈ markerNumbers ("제9조 A(B) 제1제2조(h) 조문" : String).data) := by
  decide

/-- C8 (amended): each individual extracted article body contains no marker
occurrence at all (the body group stops at the first following marker), so
spurious markers can arise only across the seams of a concatenation. -/
theorem extracted_body_marker_free (content : String) (a : Article)
    (h : a ∈ extract_articles content) :
    countMarkers a.content.data = 0 :=
  findArticlesF_content_marker_free _ _ a h

/-- C8 (witness): instance of extracted_body_marker_free on the first
article of the concrete text 제9조 A(B) 제1제2조(h) 조문. -/
theorem extracted_body_marker_free_witness :
    (⟨"9", "A(B", "제1"⟩ : Article) ∈ extract_articles "제9조 A(B) 제1제2조(h) 조문" ∧
    countMarkers (Article.content ⟨"9", "A(B", "제1"⟩).data = 0 := by
  refine ⟨by decide, ?_⟩
  exact extracted_body_marker_free "제9조 A(B) 제1제2조(h) 조문" ⟨"9", "A(B", "제1"⟩ (by decide)

/-- C4: the corpus builder emits, for each statute with non-empty content,
one full-statute document with text title-space-content, and for each
article one document with text title, 제number조, heading and body separated
by single spaces (an empty heading yields a double space); nothing else. -/
theorem prepare_documents_texts (laws : List Law) :
    prepare_documents_list laws =
      (laws.map (fun law =>
        (if law.content ≠ "" then
           [{ text := law.title ++ " " ++ law.content, title := law.title,
              type := DocType.full_law }]
         else []) ++
        law.articles.map (fun a =>
          ({ text := law.title ++ " 제" ++ a.number ++ "조 " ++ a.title ++ " " ++ a.content,
             title := law.title ++ " 제" ++ a.number ++ "조",
             type := DocType.article } : Document)))).flatten :=
  prepare_documents_list_eq laws

/-- C5: the corpus builder preserves input order: the documents of the
first statute (the optional full-statute document first, then its articles
in segmentation order) come before all documents of the remaining
statutes. -/
theorem prepare_documents_order (law : Law) (laws : List Law) :
    prepare_documents_list (law :: laws) =
      ((if law.content ≠ "" then [fullDocOf law] else []) ++
        law.articles.map (articleDocOf law)) ++ prepare_documents_list laws := by
  rw [prepare_documents_list_eq, prepare_documents_list_eq]
  simp [lawDocsOf]

/-- C2 (counterexample): two documents with equal similarity scores are
returned in reverse original order (the code reverses an ascending
argsort), refuting the claimed original-order tie-break. -/
theorem search_equal_scores_reversed :
    (search_relevant_documents tieState [1, 1] 2).map SearchResult.title = ["b", "a"] ∧
    (search_relevant_documents tieState [1, 1] 2).map SearchResult.title ≠ ["a", "b"] := by
  decide

/-- C2 (amended): on a prepared index with a score vector of matching
length and k at least 1, search returns exactly min(k, n) results sorted
in non-increasing score order, and ties are ordered by decreasing document
index (reverse of original order) under the stable determinization of the
ascending argsort. -/
theorem search_length_sorted_ties_reversed (st : SimpleRAG) (sims : List ℚ) (k : Nat)
    (hn : st.documents ≠ []) (hb : st.vectorsBuilt = true)
    (hl : sims.length = st.documents.length) (hk : 1 ≤ k) :
    (search_relevant_documents st sims k).length = min k st.documents.length ∧
    List.Pairwise (fun a b => b.similarity ≤ a.similarity)
      (search_relevant_documents st sims k) ∧
    List.Pairwise (fun i j => scoreLt sims j i) (topIndices sims k) := by
  have hguard : (st.documents.isEmpty || !st.vectorsBuilt) = false := by
    simp [List.isEmpty_eq_false.mpr hn, hb]
  refine ⟨?_, ?_, topIndices_pairwise sims k⟩
  · unfold search_relevant_documents
    rw [hguard]
    simp only [Bool.false_eq_true, if_false, List.length_map]
    rw [topIndices_length_min sims k (by omega), hl]
  · unfold search_relevant_documents
    rw [hguard]
    simp only [Bool.false_eq_true, if_false]
    refine List.Pairwise.map _ ?_ (topIndices_pairwise sims k)
    intro a b hab
    rcases hab with h1 | h2
    · exact le_of_lt h1
    · exact le_of_eq h2.1

/-- C2 (witness): instance of search_length_sorted_ties_reversed on the
two-document fixture with distinct scores and k = 1. -/
theorem search_length_sorted_ties_reversed_witness :
    tieState.documents ≠ [] ∧ tieState.vectorsBuilt = true ∧
    ([2, 1] : List ℚ).length = tieState.documents.length ∧ 1 ≤ 1 ∧
    ((search_relevant_documents tieState [2, 1] 1).length = min 1 tieState.documents.length ∧
     List.Pairwise (fun a b => b.similarity ≤ a.similarity)
       (search_relevant_documents tieState [2, 1] 1) ∧
     List.Pairwise (fun i j => scoreLt ([2, 1] : List ℚ) j i) (topIndices [2, 1] 1)) := by
  refine ⟨by decide, rfl, rfl, le_refl 1, ?_⟩
  exact search_length_sorted_ties_reversed tieState [2, 1] 1 (by decide) rfl rfl (le_refl 1)

/-- C6 (counterexample): querying the FairTradeRAG retrieval path when the
collection was never created does not return an empty result set: the
get_collection call fails and the error propagates (there is no guard in
the source), contradicting the never-raises claim. -/
theorem ft_search_unbuilt_errors :
    FT_search_relevant_documents none trivialQueryFn "하도급 대금" 5 =
      Except.error "Collection fair_trade_laws does not exist." ∧
    FT_search_relevant_documents none trivialQueryFn "하도급 대금" 5 ≠
      Except.ok [] := by
  refine ⟨rfl, ?_⟩
  intro hcontra
  exact Except.noConfusion hcontra

/-- C6 (amended): the SimpleFairTradeRAG path does satisfy the claim: on a
state whose documents were never prepared, or whose vectorizer was never
fitted, search returns the empty list for every query and every k. -/
theorem simple_search_unbuilt_empty (st : SimpleRAG) (sims : List ℚ) (k : Nat)
    (h : st.documents = [] ∨ st.vectorsBuilt = false) :
    search_relevant_documents st sims k = [] := by
  unfold search_relevant_documents
  rcases h with h | h
  · simp [h]
  · simp [h]

/-- C6 (witness): instance of simple_search_unbuilt_empty on the initial
state. -/
theorem simple_search_unbuilt_empty_witness :
    (initRAG.documents = [] ∨ initRAG.vectorsBuilt = false) ∧
    search_relevant_documents initRAG [] 5 = [] := by
  refine ⟨Or.inl rfl, ?_⟩
  exact simple_search_unbuilt_empty initRAG [] 5 (Or.inl rfl)

/-- C7: when retrieval yields no results, both analysis entry points return
the distinct non-empty no-data message rather than an analysis block. -/
theorem analyze_no_results_message (st : SimpleRAG) (sims : List ℚ) (hasKey : Bool)
    (llm : String → String) (cd : String)
    (h3 : search_relevant_documents st sims 3 = [])
    (h5 : search_relevant_documents st sims 5 = []) :
    analyze_case_simple st sims = no_data_message ∧
    analyze_case_ai hasKey llm st sims cd = no_data_message ∧
    no_data_message ≠ "" := by
  have hsimple : analyze_case_simple st sims = no_data_message := by
    unfold analyze_case_simple
    rw [h3]
    rfl
  refine ⟨hsimple, ?_, by decide⟩
  unfold analyze_case_ai
  cases hasKey with
  | false => simpa using hsimple
  | true =>
    simp only [Bool.not_true, Bool.false_eq_true, if_false]
    rw [h5]
    rfl

/-- C7 (witness): instance of analyze_no_results_message on the initial
state with the identity external service. -/
theorem analyze_no_results_message_witness :
    search_relevant_documents initRAG [] 3 = [] ∧
    search_relevant_documents initRAG [] 5 = [] ∧
    (analyze_case_simple initRAG [] = no_data_message ∧
     analyze_case_ai true id initRAG [] "케이스" = no_data_message ∧
     no_data_message ≠ "") := by
  refine ⟨rfl, rfl, ?_⟩
  exact analyze_no_results_message initRAG [] true id "케이스" rfl rfl

/-- C10: with n_results = 0 on a prepared non-empty corpus the slice
selects the whole array, so search returns one result per document (a
permutation of all indexes), still in non-increasing score order; the
result length is the corpus size, not 0. -/
theorem search_k_zero_returns_all (st : SimpleRAG) (sims : List ℚ)
    (hn : st.documents ≠ []) (hb : st.vectorsBuilt = true)
    (hl : sims.length = st.documents.length) :
    (search_relevant_documents st sims 0).length = st.documents.length ∧
    List.Perm (topIndices sims 0) (List.range st.documents.length) ∧
    List.Pairwise (fun a b => b.similarity ≤ a.similarity)
      (search_relevant_documents st sims 0) := by
  have hguard : (st.documents.isEmpty || !st.vectorsBuilt) = false := by
    simp [List.isEmpty_eq_false.mpr hn, hb]
  refine ⟨?_, ?_, ?_⟩
  · unfold search_relevant_documents
    rw [hguard]
    simp only [Bool.false_eq_true, if_false, List.length_map]
    unfold topIndices pyTailSlice
    rw [if_pos rfl, List.length_reverse, argsortAsc_length, hl]
  · rw [← hl]
    exact topIndices_zero_perm sims
  · unfold search_relevant_documents
    rw [hguard]
    simp only [Bool.false_eq_true, if_false]
    refine List.Pairwise.map _ ?_ (topIndices_pairwise sims 0)
    intro a b hab
    rcases hab with h1 | h2
    · exact le_of_lt h1
    · exact le_of_eq h2.1

/-- C10 (witness): instance of search_k_zero_returns_all on the
two-document fixture. -/
theorem search_k_zero_returns_all_witness :
    tieState.documents ≠ [] ∧ tieState.vectorsBuilt = true ∧
    ([2, 1] : List ℚ).length = tieState.documents.length ∧
    ((search_relevant_documents tieState [2, 1] 0).length = tieState.documents.length ∧
     List.Perm (topIndices [2, 1] 0) (List.range tieState.documents.length) ∧
     List.Pairwise (fun a b => b.similarity ≤ a.similarity)
       (search_relevant_documents tieState [2, 1] 0)) := by
  refine ⟨by decide, rfl, rfl, ?_⟩
  exact search_k_zero_returns_all tieState [2, 1] (by decide) rfl rfl
